import Mathlib
set_option maxRecDepth 4000
/-!
Verification of the Caraga price-scraper pipeline (scraper.py, scheduler.py).

The development shallowly embeds the relevant source functions:
the nutrition Enricher (`get_ai_nutrition` / `get_default_nutrition`),
the table Extractor (`extract_commodity_data`), the document Selector
(`get_latest_pdf_url`), and the reconciliation Upserter
(`has_any_null_nutrition` / `insert_to_supabase` / `fix_all_null_records`).

Python values flowing through `json.loads` are modelled by `JValue`
(null, booleans, numbers as exact rationals, strings); Python machine
floats are modelled as exact rationals, which is faithful for the decimal
literals this pipeline parses.  Fallible Python expressions (float() or
int() applied to a non-numeric string, json decoding) are modelled with
`Option`.  Network effects are modelled by passing each external response
in as data.
-/

/-! ## Definitions -/

/-- A decoded JSON value, as produced by json.loads. -/
inductive JValue where
  | null
  | bool (b : Bool)
  | num (q : ℚ)
  | str (s : String)
deriving DecidableEq, Repr

/-- Python truthiness: None, False, 0 and the empty string are falsy. -/
def JValue.truthy : JValue → Bool
  | .null => false
  | .bool b => b
  | .num q => q != 0
  | .str s => s != ""

/-- Python dict lookup `m.get(k)` on an object decoded from JSON:
returns the first binding for the key, if any. -/
def dictGet (m : List (String × JValue)) (k : String) : Option JValue :=
  (m.find? (fun p => p.1 == k)).map (fun p => p.2)

/-- Remove leading and trailing whitespace, as Python str.strip(). -/
def trimChars (l : List Char) : List Char :=
  ((l.dropWhile Char.isWhitespace).reverse.dropWhile Char.isWhitespace).reverse

/-- Python str.strip() (string-level). -/
def pyStrip (s : String) : String := String.mk (trimChars s.toList)

/-- Python str.upper() (ASCII, which is all this data contains). -/
def pyUpper (s : String) : String := String.mk (s.toList.map Char.toUpper)

/-- Python str.lower(). -/
def pyLower (s : String) : String := String.mk (s.toList.map Char.toLower)

/-- Accumulate a decimal digit list into a number, failing on a non-digit. -/
def decDigits? (l : List Char) : Option Nat :=
  l.foldlM (fun acc c => if c.isDigit then some (acc * 10 + (c.toNat - 48)) else none) 0

/-- Models Python float() applied to a string: optional sign, decimal
digits, optional fractional part, surrounding whitespace ignored.
(Scientific notation, inf and nan, and underscore separators do not occur
in this document format and are not modelled.)
The numeric value, integer part i and fractional part f of length n, is
assembled as the exact rational (i * 10 ^ n + f) / 10 ^ n. -/
def parseFloatLit (s : String) : Option ℚ :=
  let cs := trimChars s.toList
  let sc : ℚ × List Char :=
    match cs with
    | '-' :: rest => (-1, rest)
    | '+' :: rest => (1, rest)
    | _ => (1, cs)
  let ip := sc.2.takeWhile (fun c => c != '.')
  match sc.2.drop ip.length with
  | [] =>
    if ip.isEmpty then none
    else (decDigits? ip).map (fun n => sc.1 * mkRat n 1)
  | _ :: fp =>
    if fp.isEmpty && ip.isEmpty then none
    else do
      let i ← decDigits? ip
      let f ← decDigits? fp
      pure (sc.1 * mkRat (i * 10 ^ fp.length + f) (10 ^ fp.length))

/-- Models Python int() applied to a string: optional sign then decimal
digits only (a fractional point makes it raise). -/
def parseIntLit (s : String) : Option Int :=
  let cs := trimChars s.toList
  let sc : Int × List Char :=
    match cs with
    | '-' :: rest => (-1, rest)
    | '+' :: rest => (1, rest)
    | _ => (1, cs)
  if sc.2.isEmpty then none
  else (decDigits? sc.2).map (fun n => sc.1 * n)

/-- Python int() truncates a real number toward zero. -/
def ratTrunc (q : ℚ) : Int := if 0 ≤ q then ⌊q⌋ else ⌈q⌉

/-- Models Python float() applied to a decoded JSON value; `none` is an
exception (float(None) and float() of a non-numeric string raise). -/
def pyFloatJ : JValue → Option ℚ
  | .null => none
  | .bool b => some (if b then 1 else 0)
  | .num q => some q
  | .str s => parseFloatLit s

/-- Models Python int() applied to a decoded JSON value. -/
def pyIntJ : JValue → Option Int
  | .null => none
  | .bool b => some (if b then 1 else 0)
  | .num q => some (ratTrunc q)
  | .str s => parseIntLit s

/-- Models Python str() applied to a decoded JSON value.  The exact
rendering of numbers is a representation detail that no claim depends
on; strings pass through unchanged, which is the case that matters. -/
def pyStrJ : JValue → String
  | .null => "None"
  | .bool b => if b then "True" else "False"
  | .num q => toString q
  | .str s => s

/-- The fixed-schema nutrition record built by `get_ai_nutrition`. -/
structure NutritionProfile where
  carbs_per_100g : ℚ
  calories_per_100g : Int
  protein_per_100g : ℚ
  fat_per_100g : ℚ
  fiber_per_100g : ℚ
  glycemic_index : Int
  is_diabetic_friendly : Bool
  is_vegetarian : Bool
  is_vegan : Bool
  is_halal : Bool
  is_kosher : Bool
  is_catholic : Bool
  common_allergens : String
deriving DecidableEq, Repr

/-- Source `get_default_nutrition`: the guaranteed fallback profile. -/
def get_default_nutrition : NutritionProfile :=
  { carbs_per_100g := 0
    calories_per_100g := 0
    protein_per_100g := 0
    fat_per_100g := 0
    fiber_per_100g := 0
    glycemic_index := 50
    is_diabetic_friendly := true
    is_vegetarian := true
    is_vegan := true
    is_halal := true
    is_kosher := true
    is_catholic := true
    common_allergens := "none" }

/-- Models the expression `float(m.get(k) or d)`: a missing key gives
None, and `or` replaces every falsy value (None, 0, empty string, False)
by the literal default `d`; a truthy value is converted by float(),
which can raise (`none`). -/
def numOrDefault (m : List (String × JValue)) (k : String) (d : ℚ) : Option ℚ :=
  match dictGet m k with
  | some v => if v.truthy then pyFloatJ v else some d
  | none => some d

/-- Models the expression `int(m.get(k) or d)`, as `numOrDefault`. -/
def intOrDefault (m : List (String × JValue)) (k : String) (d : Int) : Option Int :=
  match dictGet m k with
  | some v => if v.truthy then pyIntJ v else some d
  | none => some d

/-- Models the expression `str(m.get(k) or d)`; str() never raises. -/
def strOrDefault (m : List (String × JValue)) (k : String) (d : String) : String :=
  match dictGet m k with
  | some v => if v.truthy then pyStrJ v else d
  | none => d

/-- Models the expression `bool(m.get(k, True))`: the default True is
used only when the key is missing; a present value (including an
explicit null, which is falsy) is converted by bool(). -/
def boolOrTrue (m : List (String × JValue)) (k : String) : Bool :=
  match dictGet m k with
  | some v => v.truthy
  | none => true

/-- The `validated_data` dict built in `get_ai_nutrition` from the parsed
response object; `none` when one of the float()/int() coercions raises
(which the enclosing `except Exception` turns into the default profile). -/
def validate_nutrition (m : List (String × JValue)) : Option NutritionProfile := do
  let carbs ← numOrDefault m "carbs_per_100g" 0
  let cals ← intOrDefault m "calories_per_100g" 0
  let protein ← numOrDefault m "protein_per_100g" 0
  let fat ← numOrDefault m "fat_per_100g" 0
  let fiber ← numOrDefault m "fiber_per_100g" 0
  let gi ← intOrDefault m "glycemic_index" 50
  pure
    { carbs_per_100g := carbs
      calories_per_100g := cals
      protein_per_100g := protein
      fat_per_100g := fat
      fiber_per_100g := fiber
      glycemic_index := gi
      is_diabetic_friendly := boolOrTrue m "is_diabetic_friendly"
      is_vegetarian := boolOrTrue m "is_vegetarian"
      is_vegan := boolOrTrue m "is_vegan"
      is_halal := boolOrTrue m "is_halal"
      is_kosher := boolOrTrue m "is_kosher"
      is_catholic := boolOrTrue m "is_catholic"
      common_allergens := strOrDefault m "common_allergens" "none" }

/-- One observed response of the inference call inside `get_ai_nutrition`.
The transport and json.loads are abstracted by their outcome: an HTTP
error status raised by raise_for_status, some other exception, a body
that fails to decode as JSON, a decoded non-object (on which `.get`
raises), or a decoded JSON object. -/
inductive InferOutcome where
  | httpError (status : Nat)
  | exn
  | okNonJson
  | okNonDict
  | okDict (m : List (String × JValue))
deriving DecidableEq, Repr

/-- The profile a single (non-retried) outcome produces. -/
def outcomeProfile : InferOutcome → NutritionProfile
  | .okDict m => (validate_nutrition m).getD get_default_nutrition
  | _ => get_default_nutrition

def max_retries : Nat := 3

/-- The result of a `get_ai_nutrition` call together with its observable
retry behaviour: the seconds slept before each retry and the number of
requests issued. -/
structure EnrichTrace where
  profile : NutritionProfile
  waits : List Nat
  attempts : Nat
deriving DecidableEq, Repr

/-- Recursion core of `get_ai_nutrition`.  The source recurses with
`retry_count + 1` while `retry_count < max_retries`; here the remaining
retry budget `fuel = max_retries - retry_count` is passed alongside so
that the recursion is structural: under that invariant,
`retry_count < max_retries` holds exactly when `fuel` is nonzero. -/
def enrichAux (resp : Nat → InferOutcome) : Nat → Nat → EnrichTrace
  | fuel, retry_count =>
    match resp retry_count with
    | .httpError status =>
      if status = 429 then
        match fuel with
        | f + 1 =>
          let rest := enrichAux resp f (retry_count + 1)
          ⟨rest.profile, 60 * 2 ^ retry_count :: rest.waits, rest.attempts + 1⟩
        | 0 => ⟨get_default_nutrition, [], 1⟩
      else ⟨get_default_nutrition, [], 1⟩
    | .exn => ⟨get_default_nutrition, [], 1⟩
    | .okNonJson => ⟨get_default_nutrition, [], 1⟩
    | .okNonDict => ⟨get_default_nutrition, [], 1⟩
    | .okDict m => ⟨(validate_nutrition m).getD get_default_nutrition, [], 1⟩

/-- Source `get_ai_nutrition(name, category, retry_count)`: on a 429 response
with retries remaining, sleep `60 * 2 ** retry_count` seconds and recurse
with `retry_count + 1`; on any other HTTP error, any other exception, a
JSON-decode failure, or a coercion failure, return the default profile;
on a decoded object return the validated data.  (The name and category
only shape the prompt text and do not influence the result.) -/
def get_ai_nutrition (resp : Nat → InferOutcome) (retry_count : Nat) : EnrichTrace :=
  enrichAux resp (max_retries - retry_count) retry_count

/-- One table row as pdfplumber extracts it: each cell is a string or None. -/
abbrev Row := List (Option String)

/-- The cell expression `(cell or "").strip()`. -/
def cellStr (c : Option String) : String := pyStrip (c.getD "")

/-- Source `EXCLUDED_CATEGORIES`: the fixed non-food category denylist. -/
def EXCLUDED_CATEGORIES : List String :=
  ["FERTILIZER", "INSECTICIDE", "HERBICIDE", "MOLLUSCIDE", "RODENTICIDE",
   "PESTICIDE", "FUNGICIDE", "LIVESTOCK & POULTRY FEEDS"]

/-- Source `EXCLUDED_ITEMS`: the fixed feed-product name substrings. -/
def EXCLUDED_ITEMS : List String :=
  ["HOG BOOSTER", "HOG PRE-STARTER", "HOG STARTER", "HOG GROWER",
   "HOG FINISHER", "LACTATING", "GESTATING",
   "CHICK BOOSTER", "CHICK PRE-STARTER", "CHICK STARTER", "CHICK GROWER",
   "LAYER MASH", "LAYER 1", "LAYER 2"]

/-- Does `needle` occur as a contiguous run at some position of `hay`? -/
def hasSubseg (needle : List Char) : List Char → Bool
  | [] => needle.isEmpty
  | c :: rest => needle.isPrefixOf (c :: rest) || hasSubseg needle rest

/-- The Python substring test `needle in hay`. -/
def pyStrIn (needle hay : String) : Bool := hasSubseg needle.toList hay.toList

/-- Python str.startswith. -/
def pyStartsWith (s pre : String) : Bool := pre.toList.isPrefixOf s.toList

/-- The comma-removal step applied to the price string before parsing. -/
def stripCommas (s : String) : String := String.mk (s.toList.filter (fun c => c != ','))

/-- One parsed commodity line item, as appended to `commodities`. -/
structure Commodity where
  name : String
  category : String
  specifications : Option String
  unit : String
  average_price : ℚ
deriving DecidableEq, Repr

/-- The body of the per-row loop of `extract_commodity_data`, for one
non-header row: returns the updated `current_category` and the appended
item, if any.  Mirrors the source order: rows with fewer than 5 cells are
skipped before the category cell is read; a non-blank category cell
updates the running category; rows without a name or price string are
dropped; then the category denylist, then the name-pattern denylist;
finally the price parse, whose failure drops the row. -/
def processRow (current_category : String) (row : Row) : String × Option Commodity :=
  if row.length < 5 then (current_category, none)
  else
    let commodity_group_raw := cellStr (row.headD none)
    let cat := if commodity_group_raw != "" then pyStrip (pyUpper commodity_group_raw)
               else current_category
    let commodity_name := cellStr (row.getD 1 none)
    let specifications := cellStr (row.getD 2 none)
    let unit := cellStr (row.getD 3 none)
    let average_price_str := cellStr (row.getLastD none)
    if commodity_name = "" ∨ average_price_str = "" then (cat, none)
    else if cat ∈ EXCLUDED_CATEGORIES then (cat, none)
    else if EXCLUDED_ITEMS.any (fun pat => pyStrIn pat (pyUpper commodity_name)) then (cat, none)
    else
      match parseFloatLit (stripCommas average_price_str) with
      | none => (cat, none)
      | some avg_price =>
        (cat, some
          { name := commodity_name
            category := cat
            specifications := if specifications = "" then none else some specifications
            unit := if unit = "" then "kg" else unit
            average_price := avg_price })

/-- The per-row loop over the non-header rows of one table, threading
`current_category`. -/
def processRows (current_category : String) : List Row → List Commodity
  | [] => []
  | row :: rest =>
    match processRow current_category row with
    | (cat, some c) => c :: processRows cat rest
    | (cat, none) => processRows cat rest

/-- One table: `current_category` starts empty and the header row
(`i == 0`) is skipped. -/
def processTable (table : List Row) : List Commodity :=
  processRows "" (table.drop 1)

/-- One page: `page.extract_tables()` gave this list of tables. -/
def processPage (tables : List (List Row)) : List Commodity :=
  (tables.map processTable).flatten

/-- What happened on one page of the document: either
`page.extract_tables()` returned tables, or an exception was raised
while processing the page. -/
inductive PageOutcome where
  | ok (tables : List (List Row))
  | err
deriving DecidableEq, Repr

/-- The document bytes as the Extractor experiences them: either
`pdfplumber.open` raises, or it yields a sequence of pages. -/
inductive Document where
  | openFail
  | pages (ps : List PageOutcome)
deriving DecidableEq, Repr

/-- The page loop: an exception on a page propagates to the surrounding
`except`, abandoning the remaining pages; the items already appended to
`commodities` are kept. -/
def extractPages : List PageOutcome → List Commodity
  | [] => []
  | .ok tables :: rest => processPage tables ++ extractPages rest
  | .err :: _ => []

/-- Source `extract_commodity_data`: total — every failure is caught and the
accumulated list returned. -/
def extract_commodity_data : Document → List Commodity
  | .openFail => []
  | .pages ps => extractPages ps

/-- Source `run`: the pipeline driver.  `download_pdf` returning None aborts;
an empty extraction returns False without touching the store; otherwise
the items are handed to the Upserter.  The result records what was
persisted and the success flag. -/
def run (pdf : Option Document) : List Commodity × Bool :=
  match pdf with
  | none => ([], false)
  | some doc =>
    let commodities := extract_commodity_data doc
    if commodities.isEmpty then ([], false) else (commodities, true)

def hdrRow : Row :=
  [some "COMMODITY GROUP", some "COMMODITY", some "SPECIFICATIONS", some "UNIT", some "PRICE"]

def rowTomato : Row := [some "VEGETABLES", some "Tomato", some "", some "kg", some "80.00"]

def tomatoItem : Commodity :=
  { name := "Tomato", category := "VEGETABLES", specifications := none,
    unit := "kg", average_price := 80 }

/-- One `<a href=...>` link scraped from the market listing page: the
href attribute and the stripped visible link text. -/
structure PageLink where
  href : String
  text : String
deriving DecidableEq, Repr

def isWordChar (c : Char) : Bool := c.isAlphanum || c == '_'

def digitVal (c : Char) : Nat := c.toNat - 48

def digitsVal (ds : List Char) : Nat := ds.foldl (fun a c => a * 10 + digitVal c) 0

/-- The tail `-(\d{2})-(\d{4})` that must follow the word run in the
filename pattern: a dash, exactly two digits, a dash, four digits;
whatever follows the fourth digit is unconstrained. -/
def dashDateTail : List Char → Option (Nat × Nat)
  | '-' :: a :: b :: '-' :: c1 :: c2 :: c3 :: c4 :: _ =>
    if a.isDigit && b.isDigit && c1.isDigit && c2.isDigit && c3.isDigit && c4.isDigit then
      some (digitsVal [a, b], digitsVal [c1, c2, c3, c4])
    else none
  | _ => none

/-- Models `re.search` of the filename pattern dash-two-digits-dash-four-digits
(after a word run): start
positions are tried left to right and the first full match wins; the
greedy word run is forced maximal because the dash that must follow it
is not a word character.  Returns the month-name group, day and year. -/
def searchFilenameDate : List Char → Option (String × Nat × Nat)
  | [] => none
  | c :: rest =>
    let run := (c :: rest).takeWhile isWordChar
    match (if run.isEmpty then none else dashDateTail ((c :: rest).drop run.length)) with
    | some (d, y) => some (String.mk run, d, y)
    | none => searchFilenameDate rest

/-- The tail `\s+(\d{1,2})\s+(\d{4})` of the link-text pattern.  The
day group matches exactly the following digit run, which must have
length 1 or 2 (a longer run makes both greedy lengths fail, since a
digit rather than whitespace follows). -/
def textDateTail (l : List Char) : Option (Nat × Nat) :=
  let sp1 := l.takeWhile Char.isWhitespace
  if sp1.isEmpty then none
  else
    let l1 := l.drop sp1.length
    let ds := l1.takeWhile Char.isDigit
    if ds.isEmpty || ds.length > 2 then none
    else
      let l2 := l1.drop ds.length
      let sp2 := l2.takeWhile Char.isWhitespace
      if sp2.isEmpty then none
      else
        match l2.drop sp2.length with
        | c1 :: c2 :: c3 :: c4 :: _ =>
          if c1.isDigit && c2.isDigit && c3.isDigit && c4.isDigit then
            some (digitsVal ds, digitsVal [c1, c2, c3, c4])
          else none
        | _ => none

/-- Models `re.search` of the link-text pattern: word run, whitespace, one or
two digits, whitespace, four digits. -/
def searchTextDate : List Char → Option (String × Nat × Nat)
  | [] => none
  | c :: rest =>
    let run := (c :: rest).takeWhile isWordChar
    match (if run.isEmpty then none else textDateTail ((c :: rest).drop run.length)) with
    | some (d, y) => some (String.mk run, d, y)
    | none => searchTextDate rest

def monthNames : List (String × Nat) :=
  [("january", 1), ("february", 2), ("march", 3), ("april", 4), ("may", 5), ("june", 6),
   ("july", 7), ("august", 8), ("september", 9), ("october", 10), ("november", 11),
   ("december", 12)]

/-- Models strptime with the full-month-name format code: a full month name,
matched case-insensitively; anything else raises. -/
def monthOfName (s : String) : Option Nat :=
  (monthNames.find? (fun p => p.1 == pyLower s)).map (fun p => p.2)

/-- A calendar date accepted by the datetime constructor. -/
structure PDate where
  year : Nat
  month : Nat
  day : Nat
deriving DecidableEq, Repr

def isLeapYear (y : Nat) : Bool := (y % 4 == 0 && y % 100 != 0) || y % 400 == 0

def daysInMonth (y m : Nat) : Nat :=
  if m == 2 then (if isLeapYear y then 29 else 28)
  else if m == 4 || m == 6 || m == 9 || m == 11 then 30
  else 31

/-- Models the datetime constructor: it raises ValueError outside these
bounds, which the surrounding try/except turns into no date. -/
def mkDatetime (y m d : Nat) : Option PDate :=
  if 1 ≤ y && y ≤ 9999 && 1 ≤ m && m ≤ 12 && 1 ≤ d && d ≤ daysInMonth y m then
    some ⟨y, m, d⟩
  else none

/-- datetime values compare lexicographically by (year, month, day);
on the dates `mkDatetime` admits (month ≤ 12, day ≤ 31) this numeric
key induces exactly that order. -/
def PDate.key (dt : PDate) : Nat := dt.year * 10000 + dt.month * 100 + dt.day

/-- A dated PDF candidate appended to `pdf_candidates`. -/
structure PdfCandidate where
  url : String
  date : PDate
deriving DecidableEq, Repr

/-- METHOD 1: date from the filename. -/
def parseHrefDate (href : String) : Option PDate :=
  match searchFilenameDate href.toList with
  | some (mn, d, y) => (monthOfName mn).bind (fun m => mkDatetime y m d)
  | none => none

/-- METHOD 2: date from the link text. -/
def parseTextDate (txt : String) : Option PDate :=
  match searchTextDate txt.toList with
  | some (mn, d, y) => (monthOfName mn).bind (fun m => mkDatetime y m d)
  | none => none

/-- The per-link body of `get_latest_pdf_url`: keep only price-monitoring
PDF links, absolutize the URL, try the filename date first and the
link-text date second (the latter only when the link text is non-empty),
and drop the link when both methods fail. -/
def candidateOf (link : PageLink) : Option PdfCandidate :=
  if pyStrIn "PriceMonitoring" link.href && pyStrIn ".pdf" link.href then
    let url := if pyStartsWith link.href "http" then link.href
               else "https://caraga.da.gov.ph" ++ link.href
    let dt :=
      match parseHrefDate link.href with
      | some d => some d
      | none => if link.text != "" then parseTextDate link.text else none
    dt.map (fun d => ⟨url, d⟩)
  else none

def candidatesOf (links : List PageLink) : List PdfCandidate :=
  links.filterMap candidateOf

/-- The source sorts `pdf_candidates` by date descending with Python
stable sort and takes element 0; the first element of a stable
descending sort is the first-encountered candidate of maximum date,
which this scan computes directly (a later candidate replaces the
current best only when strictly newer). -/
def selectBest (best : PdfCandidate) : List PdfCandidate → PdfCandidate
  | [] => best
  | c :: l => if best.date.key < c.date.key then selectBest c l else selectBest best l

def selectLatest : List PdfCandidate → Option PdfCandidate
  | [] => none
  | c :: l => some (selectBest c l)

/-- Source `get_latest_pdf_url`, given the scraped links: None when no dated
candidate remains, else the URL of the newest candidate. -/
def get_latest_pdf_url (links : List PageLink) : Option String :=
  (selectLatest (candidatesOf links)).map (fun c => c.url)

/-- The seven tracked columns of `has_any_null_nutrition`
(`nutrition_fields` in the source). -/
def nutrition_fields : List String :=
  ["carbs_per_100g", "calories_per_100g", "protein_per_100g",
   "fat_per_100g", "fiber_per_100g", "glycemic_index", "common_allergens"]

/-- Models the test of record.get(field) against None: true both when the key is missing from
the fetched record and when the stored value is null. -/
def isNullish : Option JValue → Bool
  | none => true
  | some .null => true
  | some _ => false

/-- Source `has_any_null_nutrition(record)`. -/
def has_any_null_nutrition (record : List (String × JValue)) : Bool :=
  nutrition_fields.any (fun f => isNullish (dictGet record f))

/-- The columns the existence check in `insert_to_supabase` selects. -/
def upsert_select : List String :=
  ["id", "carbs_per_100g", "calories_per_100g", "protein_per_100g",
   "fat_per_100g", "fiber_per_100g", "glycemic_index", "common_allergens"]

/-- The columns the `fix_all_null_records` scan selects. -/
def sweep_select : List String :=
  ["id", "name", "category", "carbs_per_100g", "calories_per_100g", "common_allergens"]

/-- The record the store returns for a select: only the requested
columns survive (a stored null comes back as an explicit JSON null). -/
def selectColumns (cols : List String) (row : List (String × JValue)) :
    List (String × JValue) :=
  row.filter (fun p => cols.contains p.1)

/-- Serialisation of the six boolean dietary flags plus the seven other
nutrition values, in the order the `validated_data` dict carries them. -/
def profileFields (p : NutritionProfile) : List (String × JValue) :=
  [("carbs_per_100g", .num p.carbs_per_100g),
   ("calories_per_100g", .num p.calories_per_100g),
   ("protein_per_100g", .num p.protein_per_100g),
   ("fat_per_100g", .num p.fat_per_100g),
   ("fiber_per_100g", .num p.fiber_per_100g),
   ("glycemic_index", .num p.glycemic_index),
   ("is_diabetic_friendly", .bool p.is_diabetic_friendly),
   ("is_vegetarian", .bool p.is_vegetarian),
   ("is_vegan", .bool p.is_vegan),
   ("is_halal", .bool p.is_halal),
   ("is_kosher", .bool p.is_kosher),
   ("is_catholic", .bool p.is_catholic),
   ("common_allergens", .str p.common_allergens)]

/-- The thirteen nutrition column names. -/
def all_nutrition_columns : List String :=
  ["carbs_per_100g", "calories_per_100g", "protein_per_100g", "fat_per_100g",
   "fiber_per_100g", "glycemic_index", "is_diabetic_friendly", "is_vegetarian",
   "is_vegan", "is_halal", "is_kosher", "is_catholic", "common_allergens"]

/-- The four keys of the price-only update payload. -/
def price_only_keys : List String :=
  ["specifications", "estimated_price", "availability", "updated_at"]

/-- Models the two-decimal money format: it rounds to hundredths, ties to
even (the price is
modelled as an exact rational; binary-float representation artifacts of
CPython are outside the model). -/
def halfEvenHundredths (q : ℚ) : Int :=
  let r := q * 100
  let f := ⌊r⌋
  if r - f < 1 / 2 then f
  else if (1 : ℚ) / 2 < r - f then f + 1
  else if f % 2 = 0 then f else f + 1

def twoDigitStr (n : Int) : String := (if n < 10 then "0" else "") ++ toString n

/-- Models the estimated_price display string: the peso sign, the price to
two decimals, and the unit. -/
def estimatedPriceStr (item : Commodity) : String :=
  let n := halfEvenHundredths item.average_price
  "₱" ++ toString (n / 100) ++ "." ++ twoDigitStr (n % 100) ++ " per " ++ item.unit

def optStrJ : Option String → JValue
  | none => .null
  | some s => .str s

/-- The four price/availability/specification/timestamp entries shared by
both update payloads. -/
def priceOnlyData (item : Commodity) (now : String) : List (String × JValue) :=
  [("specifications", optStrJ item.specifications),
   ("estimated_price", .str (estimatedPriceStr item)),
   ("availability", .str "available"),
   ("updated_at", .str now)]

/-- The decision `insert_to_supabase` takes for one line item whose
record was found, given the fetched record: whether `get_ai_nutrition`
is called and the PATCH payload that is sent. -/
structure UpsertStep where
  called_enricher : Bool
  payload : List (String × JValue)
deriving DecidableEq, Repr

/-- The found-record branch of `insert_to_supabase`: complete nutrition
gives a price-only update; any null gives an enrichment call whose
result is spread over the payload after the price fields. -/
def update_for_existing (item : Commodity) (now : String) (enrich : NutritionProfile)
    (fetched : List (String × JValue)) : UpsertStep :=
  if !(has_any_null_nutrition fetched) then
    ⟨false, priceOnlyData item now⟩
  else
    ⟨true, priceOnlyData item now ++ profileFields enrich⟩

/-- A REST PATCH overwrites exactly the columns named in the payload. -/
def applyPatch (row payload : List (String × JValue)) : List (String × JValue) :=
  row.map (fun p =>
    match dictGet payload p.1 with
    | some v => (p.1, v)
    | none => p)

/-- The classification `fix_all_null_records` applies to one stored row:
it re-checks `has_any_null_nutrition` on the narrow projection it
fetched. -/
def sweepDetects (row : List (String × JValue)) : Bool :=
  has_any_null_nutrition (selectColumns sweep_select row)

def exampleFullRecord : List (String × JValue) :=
  [("id", .num 7), ("name", .str "Tomato"), ("category", .str "VEGETABLES"),
   ("carbs_per_100g", .num 4), ("calories_per_100g", .num 18),
   ("protein_per_100g", .num 1), ("fat_per_100g", .num 0.2),
   ("fiber_per_100g", .num 1.2), ("glycemic_index", .num 15),
   ("is_diabetic_friendly", .null), ("is_vegetarian", .null),
   ("is_vegan", .null), ("is_halal", .null), ("is_kosher", .null),
   ("is_catholic", .null), ("common_allergens", .str "none")]

/-- How a numeric field is actually coerced: the default is taken when
the key is missing or the present value is falsy (null, 0, empty string
or false); a truthy value is converted by float(). -/
def defaultedNum (m : List (String × JValue)) (k : String) (d x : ℚ) : Prop :=
  (dictGet m k = none → x = d) ∧
  (∀ v, dictGet m k = some v → v.truthy = false → x = d) ∧
  (∀ v, dictGet m k = some v → v.truthy = true → pyFloatJ v = some x)

/-- As `defaultedNum`, for the int() fields. -/
def defaultedInt (m : List (String × JValue)) (k : String) (d x : Int) : Prop :=
  (dictGet m k = none → x = d) ∧
  (∀ v, dictGet m k = some v → v.truthy = false → x = d) ∧
  (∀ v, dictGet m k = some v → v.truthy = true → pyIntJ v = some x)

/-- As `defaultedNum`, for the allergen string field. -/
def defaultedStr (m : List (String × JValue)) (k : String) (d x : String) : Prop :=
  (dictGet m k = none → x = d) ∧
  (∀ v, dictGet m k = some v → v.truthy = false → x = d) ∧
  (∀ v, dictGet m k = some v → v.truthy = true → pyStrJ v = x)

/-- How a boolean flag is actually coerced: true only when the key is
missing; a present value — including an explicit null or false — is
taken by truthiness, so null becomes false. -/
def flagFromDict (m : List (String × JValue)) (k : String) (x : Bool) : Prop :=
  (dictGet m k = none → x = true) ∧
  (∀ v, dictGet m k = some v → x = v.truthy)

def rowNA : Row := [some "", some "ItemX", some "", some "kg", some "N/A"]

/-- The running category after the extractor has processed the given
rows, starting from `cat` (the fold the source performs through its
`current_category` variable). -/
def catThread (cat : String) (rows : List Row) : String :=
  rows.foldl (fun a row => (processRow a row).1) cat

/-- The claim-side category: the uppercased category cell of the most
recent row (among the given rows, in order) whose category cell is
non-blank, or the empty starting category when there is none. -/
def specRowCat (rows : List Row) : String :=
  match rows.reverse.find? (fun r => cellStr (r.headD none) != "") with
  | some r => pyStrip (pyUpper (cellStr (r.headD none)))
  | none => ""

def rowA1 : Row := [some "A", some "Itm1", some "", some "kg", some "10.00"]

def rowA2 : Row := [some "", some "Itm2", some "", some "kg", some "11.00"]

def rowA3 : Row := [none, some "Itm3", some "", some "kg", some "12.00"]

def itmA2 : Commodity :=
  { name := "Itm2", category := "A", specifications := none, unit := "kg", average_price := 11 }

def tieLinks : List PageLink :=
  [⟨"/other.pdf", "irrelevant"⟩,
   ⟨"/PriceMonitoring-October-14-2025.pdf", ""⟩,
   ⟨"/PriceMonitoring-B-prices.pdf", "Butuan October 14 2025"⟩,
   ⟨"/PriceMonitoring-undated.pdf", "no date"⟩]

def fetchedWithNull : List (String × JValue) :=
  [("id", .num 3), ("carbs_per_100g", .null), ("calories_per_100g", .num 1),
   ("protein_per_100g", .num 1), ("fat_per_100g", .num 1), ("fiber_per_100g", .num 1),
   ("glycemic_index", .num 1), ("common_allergens", .str "none")]

/-! ## Theorems -/

/-- Concrete evaluation of the price parser on the documented example
(1234.50 as an exact rational is 2469/2). -/
theorem parseFloatLit_example : parseFloatLit "1234.50" = some (mkRat 2469 2) := by
  with_unfolding_all rfl

/-- No serialised profile field is null: every coercion in
`validated_data` produces a number, a boolean or a string. -/
theorem profileFields_nonnull (p : NutritionProfile) :
    ∀ fv ∈ profileFields p, fv.2 ≠ JValue.null := by
  intro fv h
  simp only [profileFields, List.mem_cons, List.not_mem_nil, or_false] at h
  rcases h with h | h | h | h | h | h | h | h | h | h | h | h | h <;> subst h <;> simp

/-- Step equation: a 429 with retry budget left sleeps and recurses. -/
theorem enrichAux_retry (resp : Nat → InferOutcome) (f rc : Nat)
    (hresp : resp rc = .httpError 429) :
    enrichAux resp (f + 1) rc =
      ⟨(enrichAux resp f (rc + 1)).profile,
       60 * 2 ^ rc :: (enrichAux resp f (rc + 1)).waits,
       (enrichAux resp f (rc + 1)).attempts + 1⟩ := by
  simp only [enrichAux]
  rw [hresp]
  simp

/-- Step equation: any outcome that does not trigger a retry (an HTTP
error that is not a 429, a 429 with the budget exhausted, another
exception, or any decoded body) ends the loop with the profile of that
outcome. -/
theorem enrichAux_stop (resp : Nat → InferOutcome) (fuel rc : Nat)
    (h : ∀ s, resp rc = .httpError s → s ≠ 429 ∨ fuel = 0) :
    enrichAux resp fuel rc = ⟨outcomeProfile (resp rc), [], 1⟩ := by
  cases fuel with
  | zero =>
    simp only [enrichAux]
    cases hresp : resp rc with
    | httpError s => by_cases hs : s = 429 <;> simp [hs, outcomeProfile]
    | exn => simp [outcomeProfile]
    | okNonJson => simp [outcomeProfile]
    | okNonDict => simp [outcomeProfile]
    | okDict m => simp [outcomeProfile]
  | succ f =>
    simp only [enrichAux]
    cases hresp : resp rc with
    | httpError s =>
      rcases h s hresp with hs | hf
      · simp [hs, outcomeProfile]
      · exact absurd hf (Nat.succ_ne_zero f)
    | exn => simp [outcomeProfile]
    | okNonJson => simp [outcomeProfile]
    | okNonDict => simp [outcomeProfile]
    | okDict m => simp [outcomeProfile]

/-- Full characterisation of the retry loop: the attempt count, the
backoff waits, the rate-limit condition on every retried attempt, the
profile as a function of the outcome of the final attempt, and the fact
that a final rate-limit response means the budget was exhausted. -/
theorem enrichAux_spec (resp : Nat → InferOutcome) :
    ∀ (fuel rc : Nat),
      (enrichAux resp fuel rc).attempts = (enrichAux resp fuel rc).waits.length + 1 ∧
      (enrichAux resp fuel rc).waits.length ≤ fuel ∧
      (enrichAux resp fuel rc).waits =
        (List.range (enrichAux resp fuel rc).waits.length).map (fun i => 60 * 2 ^ (rc + i)) ∧
      (∀ i < (enrichAux resp fuel rc).waits.length, resp (rc + i) = .httpError 429) ∧
      (enrichAux resp fuel rc).profile =
        outcomeProfile (resp (rc + (enrichAux resp fuel rc).waits.length)) ∧
      (resp (rc + (enrichAux resp fuel rc).waits.length) = .httpError 429 →
        (enrichAux resp fuel rc).waits.length = fuel) := by
  intro fuel
  induction fuel with
  | zero =>
    intro rc
    have hstop : enrichAux resp 0 rc = ⟨outcomeProfile (resp rc), [], 1⟩ :=
      enrichAux_stop resp 0 rc (fun s _ => Or.inr rfl)
    rw [hstop]
    simp
  | succ f ih =>
    intro rc
    by_cases hresp : resp rc = .httpError 429
    · have hstep := enrichAux_retry resp f rc hresp
      obtain ⟨ha, hlen, hw, h429, hp, hex⟩ := ih (rc + 1)
      rw [hstep]
      refine ⟨by simp [ha], ?_, ?_, ?_, ?_, ?_⟩
      · simpa using Nat.succ_le_succ hlen
      · show 60 * 2 ^ rc :: (enrichAux resp f (rc + 1)).waits = _
        have hlc : (60 * 2 ^ rc :: (enrichAux resp f (rc + 1)).waits).length =
            (enrichAux resp f (rc + 1)).waits.length + 1 := by simp
        rw [hlc, List.range_succ_eq_map, List.map_cons, List.map_map]
        refine congrArg₂ List.cons (by simp) ?_
        rw [hw]
        simp only [List.length_map, List.length_range]
        apply List.map_congr_left
        intro i _
        simp only [Function.comp_apply, Nat.succ_eq_add_one]
        have harith : rc + 1 + i = rc + (i + 1) := by omega
        rw [harith]
      · intro i hi
        cases i with
        | zero => simpa using hresp
        | succ j =>
          have hj : j < (enrichAux resp f (rc + 1)).waits.length := by
            simpa [Nat.succ_lt_succ_iff] using hi
          have hrj := h429 j hj
          have : rc + (j + 1) = rc + 1 + j := by omega
          rw [this]
          exact hrj
      · show (enrichAux resp f (rc + 1)).profile = _
        rw [hp]
        have : rc + ((60 * 2 ^ rc :: (enrichAux resp f (rc + 1)).waits).length) =
            rc + 1 + (enrichAux resp f (rc + 1)).waits.length := by
          simp only [List.length_cons]
          omega
        rw [this]
      · intro hfin
        have harith : rc + ((60 * 2 ^ rc :: (enrichAux resp f (rc + 1)).waits).length) =
            rc + 1 + (enrichAux resp f (rc + 1)).waits.length := by
          simp only [List.length_cons]
          omega
        rw [harith] at hfin
        simp [hex hfin]
    · have hstop : enrichAux resp (f + 1) rc = ⟨outcomeProfile (resp rc), [], 1⟩ := by
        refine enrichAux_stop resp (f + 1) rc (fun s hs => Or.inl ?_)
        intro h429eq
        exact hresp (by rw [hs, h429eq])
      rw [hstop]
      simp [hresp]

/-- Claim C1 (amended): for every input to the Enricher, including a
malformed, empty, or non-JSON inference response, every field of the
returned nutrition profile is non-null; the glycemic_index is 50 on every
fallback path, and lies in [0,100] provided that every successfully
validated response object yields a glycemic index in [0,100] (the
coercion does not clamp an out-of-range number supplied by the service). -/
theorem enricher_profile_nonnull_gi_range (resp : Nat → InferOutcome) (retry_count : Nat)
    (h : ∀ k m p, resp k = .okDict m → validate_nutrition m = some p →
      0 ≤ p.glycemic_index ∧ p.glycemic_index ≤ 100) :
    (∀ fv ∈ profileFields (get_ai_nutrition resp retry_count).profile, fv.2 ≠ JValue.null) ∧
    0 ≤ (get_ai_nutrition resp retry_count).profile.glycemic_index ∧
    (get_ai_nutrition resp retry_count).profile.glycemic_index ≤ 100 := by
  refine ⟨profileFields_nonnull _, ?_⟩
  obtain ⟨-, -, -, -, hp, -⟩ := enrichAux_spec resp (max_retries - retry_count) retry_count
  have hget : (get_ai_nutrition resp retry_count).profile =
      outcomeProfile (resp (retry_count +
        (enrichAux resp (max_retries - retry_count) retry_count).waits.length)) := hp
  rw [hget]
  cases hout : resp (retry_count +
      (enrichAux resp (max_retries - retry_count) retry_count).waits.length) with
  | okDict m =>
    cases hv : validate_nutrition m with
    | none => simp [outcomeProfile, hv, get_default_nutrition]
    | some p =>
      have := h _ m p hout hv
      simpa [outcomeProfile, hv] using this
  | httpError s => simp [outcomeProfile, get_default_nutrition]
  | exn => simp [outcomeProfile, get_default_nutrition]
  | okNonJson => simp [outcomeProfile, get_default_nutrition]
  | okNonDict => simp [outcomeProfile, get_default_nutrition]

/-- Witness for C1: a permanently failing inference call satisfies the
hypothesis vacuously and yields the in-range default. -/
theorem enricher_profile_nonnull_gi_range_witness :
    0 ≤ (get_ai_nutrition (fun _ => InferOutcome.exn) 0).profile.glycemic_index ∧
    (get_ai_nutrition (fun _ => InferOutcome.exn) 0).profile.glycemic_index ≤ 100 :=
  (enricher_profile_nonnull_gi_range (fun _ => .exn) 0 (fun _ _ _ hk => nomatch hk)).2

/-- Counterexample for C1 as stated: a well-formed response carrying
glycemic_index 150 is passed through unclamped, so the returned
glycemic_index lies outside [0,100]. -/
theorem enricher_gi_range_counterexample :
    ¬ ((get_ai_nutrition (fun _ => .okDict [("glycemic_index", JValue.num 150)]) 0).profile.glycemic_index
        ≤ 100) := by
  with_unfolding_all decide

/-- Claim C2 (amended): on a rate-limit (HTTP 429) response the Enricher
retries with waits of 60 * 2 ^ i seconds, making up to 4 attempts total
(one initial request plus at most 3 retries); every attempt before the
last observed a 429; and on any permanent failure — a non-429 HTTP
error, any other exception, a JSON-decode failure, or a response whose
coercion fails — the result is the complete fallback profile (all macros
0, glycemic index 50, all dietary flags true, allergens "none"). -/
theorem enricher_retry_policy (resp : Nat → InferOutcome) :
    (get_ai_nutrition resp 0).attempts = (get_ai_nutrition resp 0).waits.length + 1 ∧
    (get_ai_nutrition resp 0).attempts ≤ 4 ∧
    (get_ai_nutrition resp 0).waits =
      (List.range (get_ai_nutrition resp 0).waits.length).map (fun i => 60 * 2 ^ i) ∧
    (∀ i < (get_ai_nutrition resp 0).waits.length, resp i = .httpError 429) ∧
    (get_ai_nutrition resp 0).profile =
      outcomeProfile (resp (get_ai_nutrition resp 0).waits.length) ∧
    (∀ s, outcomeProfile (.httpError s) = get_default_nutrition) ∧
    outcomeProfile .exn = get_default_nutrition ∧
    outcomeProfile .okNonJson = get_default_nutrition ∧
    outcomeProfile .okNonDict = get_default_nutrition ∧
    (∀ m, validate_nutrition m = none →
      outcomeProfile (.okDict m) = get_default_nutrition) ∧
    get_default_nutrition =
      ⟨0, 0, 0, 0, 0, 50, true, true, true, true, true, true, "none"⟩ := by
  have hdef : get_ai_nutrition resp 0 = enrichAux resp max_retries 0 := by
    simp [get_ai_nutrition]
  rw [hdef]
  obtain ⟨ha, hlen, hw, h429, hp, -⟩ := enrichAux_spec resp max_retries 0
  have hlen3 : (enrichAux resp max_retries 0).waits.length ≤ 3 := hlen
  refine ⟨ha, ?_, ?_, ?_, ?_, fun _ => rfl, rfl, rfl, rfl, ?_, rfl⟩
  · rw [ha]
    omega
  · simpa using hw
  · intro i hi
    simpa using h429 i hi
  · simpa using hp
  · intro m hm
    simp [outcomeProfile, hm]

/-- Witness for C2: the all-429 run stays within 4 attempts. -/
theorem enricher_retry_policy_witness :
    (get_ai_nutrition (fun _ => .httpError 429) 0).attempts ≤ 4 :=
  (enricher_retry_policy (fun _ => .httpError 429)).2.1

/-- Counterexample for C2 as stated: under persistent rate limiting the
Enricher issues 4 requests, not "up to 3 attempts total" (the three
waits 60, 120, 240 confirm the backoff base and doubling). -/
theorem enricher_attempts_counterexample :
    (get_ai_nutrition (fun _ => .httpError 429) 0).attempts = 4 ∧
    (get_ai_nutrition (fun _ => .httpError 429) 0).waits = [60, 120, 240] := by
  with_unfolding_all decide

theorem numOrDefault_spec (m : List (String × JValue)) (k : String) (d x : ℚ)
    (h : numOrDefault m k d = some x) : defaultedNum m k d x := by
  unfold defaultedNum
  cases hd : dictGet m k with
  | none =>
    have h2 : numOrDefault m k d = some d := by unfold numOrDefault; rw [hd]
    rw [h2, Option.some_inj] at h
    refine ⟨fun _ => h.symm, ?_, ?_⟩
    · intro v hv
      exact Option.noConfusion hv
    · intro v hv
      exact Option.noConfusion hv
  | some v =>
    have h2 : numOrDefault m k d = if v.truthy then pyFloatJ v else some d := by
      unfold numOrDefault; rw [hd]
    rw [h2] at h
    refine ⟨?_, ?_, ?_⟩
    · intro hn
      exact Option.noConfusion hn
    · intro w hw hf
      rw [Option.some_inj] at hw
      subst hw
      rw [if_neg (by simp [hf]), Option.some_inj] at h
      exact h.symm
    · intro w hw ht
      rw [Option.some_inj] at hw
      subst hw
      rw [if_pos ht] at h
      exact h

theorem intOrDefault_spec (m : List (String × JValue)) (k : String) (d x : Int)
    (h : intOrDefault m k d = some x) : defaultedInt m k d x := by
  unfold defaultedInt
  cases hd : dictGet m k with
  | none =>
    have h2 : intOrDefault m k d = some d := by unfold intOrDefault; rw [hd]
    rw [h2, Option.some_inj] at h
    refine ⟨fun _ => h.symm, ?_, ?_⟩
    · intro v hv
      exact Option.noConfusion hv
    · intro v hv
      exact Option.noConfusion hv
  | some v =>
    have h2 : intOrDefault m k d = if v.truthy then pyIntJ v else some d := by
      unfold intOrDefault; rw [hd]
    rw [h2] at h
    refine ⟨?_, ?_, ?_⟩
    · intro hn
      exact Option.noConfusion hn
    · intro w hw hf
      rw [Option.some_inj] at hw
      subst hw
      rw [if_neg (by simp [hf]), Option.some_inj] at h
      exact h.symm
    · intro w hw ht
      rw [Option.some_inj] at hw
      subst hw
      rw [if_pos ht] at h
      exact h

theorem strOrDefault_spec (m : List (String × JValue)) (k : String) (d : String) :
    defaultedStr m k d (strOrDefault m k d) := by
  unfold defaultedStr
  cases hd : dictGet m k with
  | none =>
    have h2 : strOrDefault m k d = d := by unfold strOrDefault; rw [hd]
    rw [h2]
    refine ⟨fun _ => rfl, ?_, ?_⟩
    · intro v hv
      exact Option.noConfusion hv
    · intro v hv
      exact Option.noConfusion hv
  | some v =>
    have h2 : strOrDefault m k d = if v.truthy then pyStrJ v else d := by
      unfold strOrDefault; rw [hd]
    rw [h2]
    refine ⟨?_, ?_, ?_⟩
    · intro hn
      exact Option.noConfusion hn
    · intro w hw hf
      rw [Option.some_inj] at hw
      subst hw
      rw [if_neg (by simp [hf])]
    · intro w hw ht
      rw [Option.some_inj] at hw
      subst hw
      rw [if_pos ht]

theorem boolOrTrue_spec (m : List (String × JValue)) (k : String) :
    flagFromDict m k (boolOrTrue m k) := by
  unfold flagFromDict
  cases hd : dictGet m k with
  | none =>
    have h2 : boolOrTrue m k = true := by unfold boolOrTrue; rw [hd]
    rw [h2]
    refine ⟨fun _ => rfl, ?_⟩
    intro v hv
    exact Option.noConfusion hv
  | some v =>
    have h2 : boolOrTrue m k = v.truthy := by unfold boolOrTrue; rw [hd]
    rw [h2]
    refine ⟨?_, ?_⟩
    · intro hn
      exact Option.noConfusion hn
    · intro w hw
      rw [Option.some_inj] at hw
      subst hw
      rfl

/-- Claim C3 (amended): the coercion substitutes the documented default
(numeric fields 0, glycemic index 50, common_allergens "none") whenever
the parsed value is missing, null, or otherwise falsy — so a present
glycemic index of 0 or an empty allergen string is also replaced — and
converts any truthy value with float()/int()/str(); a boolean flag
defaults to true only when missing, while a present null or false
coerces to false. -/
theorem coercion_default_semantics (m : List (String × JValue)) (p : NutritionProfile)
    (h : validate_nutrition m = some p) :
    defaultedNum m "carbs_per_100g" 0 p.carbs_per_100g ∧
    defaultedInt m "calories_per_100g" 0 p.calories_per_100g ∧
    defaultedNum m "protein_per_100g" 0 p.protein_per_100g ∧
    defaultedNum m "fat_per_100g" 0 p.fat_per_100g ∧
    defaultedNum m "fiber_per_100g" 0 p.fiber_per_100g ∧
    defaultedInt m "glycemic_index" 50 p.glycemic_index ∧
    defaultedStr m "common_allergens" "none" p.common_allergens ∧
    flagFromDict m "is_diabetic_friendly" p.is_diabetic_friendly ∧
    flagFromDict m "is_vegetarian" p.is_vegetarian ∧
    flagFromDict m "is_vegan" p.is_vegan ∧
    flagFromDict m "is_halal" p.is_halal ∧
    flagFromDict m "is_kosher" p.is_kosher ∧
    flagFromDict m "is_catholic" p.is_catholic := by
  unfold validate_nutrition at h
  simp only [bind, Option.bind_eq_some, pure, Option.some_inj] at h
  obtain ⟨carbs, hc, cals, hcal, protein, hpr, fat, hf, fiber, hfb, gi, hgi, hp⟩ := h
  subst hp
  exact ⟨numOrDefault_spec _ _ _ _ hc, intOrDefault_spec _ _ _ _ hcal,
    numOrDefault_spec _ _ _ _ hpr, numOrDefault_spec _ _ _ _ hf,
    numOrDefault_spec _ _ _ _ hfb, intOrDefault_spec _ _ _ _ hgi,
    strOrDefault_spec _ _ _, boolOrTrue_spec _ _, boolOrTrue_spec _ _,
    boolOrTrue_spec _ _, boolOrTrue_spec _ _, boolOrTrue_spec _ _, boolOrTrue_spec _ _⟩

/-- Witness for C3: a response with a truthy glycemic index 73 and an
explicit false vegan flag validates, the index is preserved and the flag
kept false. -/
theorem coercion_default_semantics_witness :
    defaultedInt [("glycemic_index", JValue.num 73), ("is_vegan", JValue.bool false)]
      "glycemic_index" 50 73 ∧
    flagFromDict [("glycemic_index", JValue.num 73), ("is_vegan", JValue.bool false)]
      "is_vegan" false := by
  have h := coercion_default_semantics
    [("glycemic_index", JValue.num 73), ("is_vegan", JValue.bool false)]
    { carbs_per_100g := 0, calories_per_100g := 0, protein_per_100g := 0,
      fat_per_100g := 0, fiber_per_100g := 0, glycemic_index := 73,
      is_diabetic_friendly := true, is_vegetarian := true, is_vegan := false,
      is_halal := true, is_kosher := true, is_catholic := true,
      common_allergens := "none" }
    (by with_unfolding_all decide)
  exact ⟨h.2.2.2.2.2.1, h.2.2.2.2.2.2.2.2.2.1⟩

/-- Counterexample for C3 as stated: a present, non-null glycemic index
of 0 is not preserved — the coercion replaces it by the default 50. -/
theorem coercion_preserves_counterexample :
    (validate_nutrition [("glycemic_index", JValue.num 0)]).map
        (fun p => p.glycemic_index) = some 50 ∧
    ¬ ((validate_nutrition [("glycemic_index", JValue.num 0)]).map
        (fun p => p.glycemic_index) = some 0) := by
  with_unfolding_all decide

/-- A row the extractor keeps satisfies every filter: non-empty name,
category outside the denylist, no excluded name pattern, and a price
string that parsed as the item price. -/
theorem processRow_some (cat : String) (row : Row) (c : Commodity)
    (h : (processRow cat row).2 = some c) :
    c.name ≠ "" ∧ c.category ∉ EXCLUDED_CATEGORIES ∧
    (∀ pat ∈ EXCLUDED_ITEMS, pyStrIn pat (pyUpper c.name) = false) ∧
    parseFloatLit (stripCommas (cellStr (row.getLastD none))) = some c.average_price := by
  unfold processRow at h
  by_cases h5 : row.length < 5
  · rw [if_pos h5] at h
    exact Option.noConfusion h
  · rw [if_neg h5] at h
    dsimp only at h
    set cat2 := (if (cellStr (row.headD none) != "") = true
      then pyStrip (pyUpper (cellStr (row.headD none))) else cat) with hcat2
    by_cases h1 : cellStr (row.getD 1 none) = "" ∨ cellStr (row.getLastD none) = ""
    · rw [if_pos h1] at h
      exact Option.noConfusion h
    · rw [if_neg h1] at h
      by_cases h2 : cat2 ∈ EXCLUDED_CATEGORIES
      · rw [if_pos h2] at h
        exact Option.noConfusion h
      · rw [if_neg h2] at h
        by_cases h3 : (EXCLUDED_ITEMS.any
            fun pat => pyStrIn pat (pyUpper (cellStr (row.getD 1 none)))) = true
        · rw [if_pos h3] at h
          exact Option.noConfusion h
        · rw [if_neg h3] at h
          cases hpp : parseFloatLit (stripCommas (cellStr (row.getLastD none))) with
          | none =>
            rw [hpp] at h
            exact Option.noConfusion h
          | some price =>
            rw [hpp] at h
            dsimp only at h
            rw [Option.some_inj] at h
            subst h
            push_neg at h1
            refine ⟨h1.1, h2, ?_, rfl⟩
            intro pat hpat
            by_contra hcon
            exact h3 (List.any_eq_true.mpr ⟨pat, hpat, by simpa using hcon⟩)

/-- Every extracted item originates from a kept row. -/
theorem mem_processRows (c : Commodity) :
    ∀ (rows : List Row) (cat : String), c ∈ processRows cat rows →
      ∃ cat' row, row ∈ rows ∧ (processRow cat' row).2 = some c := by
  intro rows
  induction rows with
  | nil =>
    intro cat h
    simp [processRows] at h
  | cons r rest ih =>
    intro cat h
    rw [processRows] at h
    rcases hpr : processRow cat r with ⟨cat2, item⟩
    rw [hpr] at h
    cases item with
    | none =>
      obtain ⟨cat', row, hrow, hsome⟩ := ih cat2 h
      exact ⟨cat', row, List.mem_cons_of_mem _ hrow, hsome⟩
    | some c0 =>
      rcases List.mem_cons.mp h with hc | hc
      · subst hc
        exact ⟨cat, r, List.mem_cons_self _ _, by rw [hpr]⟩
      · obtain ⟨cat', row, hrow, hsome⟩ := ih cat2 hc
        exact ⟨cat', row, List.mem_cons_of_mem _ hrow, hsome⟩

theorem mem_extract (doc : Document) (c : Commodity)
    (h : c ∈ extract_commodity_data doc) :
    ∃ cat row, (processRow cat row).2 = some c := by
  cases doc with
  | openFail => simp [extract_commodity_data] at h
  | pages ps =>
    rw [extract_commodity_data] at h
    induction ps with
    | nil => simp [extractPages] at h
    | cons p rest ih =>
      cases p with
      | err => simp [extractPages] at h
      | ok tables =>
        rw [extractPages] at h
        rcases List.mem_append.mp h with hp | hp
        · rw [processPage] at hp
          obtain ⟨items, hit, hc⟩ := List.mem_flatten.mp hp
          obtain ⟨t, ht, hteq⟩ := List.mem_map.mp hit
          subst hteq
          rw [processTable] at hc
          obtain ⟨cat', row, _, hsome⟩ := mem_processRows c (t.drop 1) "" hc
          exact ⟨cat', row, hsome⟩
        · exact ih hp

/-- A row whose price cell fails to parse yields no item. -/
theorem processRow_parse_fail (cat : String) (row : Row)
    (h : parseFloatLit (stripCommas (cellStr (row.getLastD none))) = none) :
    (processRow cat row).2 = none := by
  unfold processRow
  by_cases h5 : row.length < 5
  · rw [if_pos h5]
  · rw [if_neg h5]
    dsimp only
    set cat2 := (if (cellStr (row.headD none) != "") = true
      then pyStrip (pyUpper (cellStr (row.headD none))) else cat) with hcat2
    by_cases h1 : cellStr (row.getD 1 none) = "" ∨ cellStr (row.getLastD none) = ""
    · rw [if_pos h1]
    · rw [if_neg h1]
      by_cases h2 : cat2 ∈ EXCLUDED_CATEGORIES
      · rw [if_pos h2]
      · rw [if_neg h2]
        by_cases h3 : (EXCLUDED_ITEMS.any
            fun pat => pyStrIn pat (pyUpper (cellStr (row.getD 1 none)))) = true
        · rw [if_pos h3]
        · rw [if_neg h3, h]

/-- The running category after one row: updated from a non-blank
category cell of a well-formed row, otherwise unchanged. -/
theorem processRow_fst (cat : String) (row : Row) (h5 : ¬ row.length < 5) :
    (processRow cat row).1 =
      if cellStr (row.headD none) != "" then pyStrip (pyUpper (cellStr (row.headD none)))
      else cat := by
  unfold processRow
  rw [if_neg h5]
  dsimp only
  set cat2 := (if (cellStr (row.headD none) != "") = true
    then pyStrip (pyUpper (cellStr (row.headD none))) else cat) with hcat2
  by_cases h1 : cellStr (row.getD 1 none) = "" ∨ cellStr (row.getLastD none) = ""
  · rw [if_pos h1]
  · rw [if_neg h1]
    by_cases h2 : cat2 ∈ EXCLUDED_CATEGORIES
    · rw [if_pos h2]
    · rw [if_neg h2]
      by_cases h3 : (EXCLUDED_ITEMS.any
          fun pat => pyStrIn pat (pyUpper (cellStr (row.getD 1 none)))) = true
      · rw [if_pos h3]
      · rw [if_neg h3]
        cases hpp : parseFloatLit (stripCommas (cellStr (row.getLastD none))) with
        | none => rfl
        | some price => rfl

/-- A short row leaves the running category unchanged. -/
theorem processRow_fst_short (cat : String) (row : Row) (h5 : row.length < 5) :
    (processRow cat row).1 = cat := by
  unfold processRow
  rw [if_pos h5]

/-- An emitted item carries the updated running category. -/
theorem processRow_snd_cat (cat : String) (row : Row) (c : Commodity)
    (h : (processRow cat row).2 = some c) :
    c.category = (processRow cat row).1 := by
  unfold processRow at h ⊢
  by_cases h5 : row.length < 5
  · rw [if_pos h5] at h
    exact Option.noConfusion h
  · rw [if_neg h5] at h ⊢
    dsimp only at h ⊢
    set cat2 := (if (cellStr (row.headD none) != "") = true
      then pyStrip (pyUpper (cellStr (row.headD none))) else cat) with hcat2
    by_cases h1 : cellStr (row.getD 1 none) = "" ∨ cellStr (row.getLastD none) = ""
    · rw [if_pos h1] at h
      exact Option.noConfusion h
    · rw [if_neg h1] at h ⊢
      by_cases h2 : cat2 ∈ EXCLUDED_CATEGORIES
      · rw [if_pos h2] at h
        exact Option.noConfusion h
      · rw [if_neg h2] at h ⊢
        by_cases h3 : (EXCLUDED_ITEMS.any
            fun pat => pyStrIn pat (pyUpper (cellStr (row.getD 1 none)))) = true
        · rw [if_pos h3] at h
          exact Option.noConfusion h
        · rw [if_neg h3] at h ⊢
          cases hpp : parseFloatLit (stripCommas (cellStr (row.getLastD none))) with
          | none =>
            rw [hpp] at h
            exact Option.noConfusion h
          | some price =>
            rw [hpp] at h
            dsimp only at h ⊢
            rw [Option.some_inj] at h
            subst h
            rfl

/-- Claim C4 (amended): the Extractor never raises: an unopenable
document yields the empty sequence, and an exception partway through the
pages ends the extraction with exactly the items accumulated before the
failing page (so a failure before any parsed row yields the empty
sequence, but items from earlier pages are kept, not discarded).  The
pipeline driver treats a missing download and an empty extraction as
"nothing to persist", returning failure without writing. -/
theorem extract_failure_semantics :
    (∀ (tss : List (List (List Row))) (suffix : List PageOutcome),
      extractPages (tss.map PageOutcome.ok ++ PageOutcome.err :: suffix) =
        extractPages (tss.map PageOutcome.ok)) ∧
    extract_commodity_data Document.openFail = [] ∧
    run none = ([], false) ∧
    (∀ doc, extract_commodity_data doc = [] → run (some doc) = ([], false)) := by
  refine ⟨?_, rfl, rfl, ?_⟩
  · intro tss suffix
    induction tss with
    | nil => rfl
    | cons ts rest ih => simp [extractPages, ih]
  · intro doc h
    simp [run, h]

/-- Witness for C4: an unopenable document is nothing to persist. -/
theorem extract_failure_semantics_witness :
    run (some Document.openFail) = ([], false) :=
  extract_failure_semantics.2.2.2 Document.openFail rfl

/-- Counterexample for C4 as stated: when the first page parses one item
and the second page raises, the extraction returns that item, not the
empty sequence. -/
theorem extract_partial_counterexample :
    extract_commodity_data
        (Document.pages [PageOutcome.ok [[hdrRow, rowTomato]], PageOutcome.err]) = [tomatoItem] ∧
    extract_commodity_data
        (Document.pages [PageOutcome.ok [[hdrRow, rowTomato]], PageOutcome.err]) ≠ [] := by
  with_unfolding_all decide

/-- Claim C6: every item the Extractor emits has a non-empty name, a
category outside the fixed denylist, a name containing no excluded
feed-product substring, and a price obtained from a successful parse of
the price cell of its row. -/
theorem extractor_exclusion_invariant (doc : Document) (c : Commodity)
    (h : c ∈ extract_commodity_data doc) :
    c.name ≠ "" ∧ c.category ∉ EXCLUDED_CATEGORIES ∧
    (∀ pat ∈ EXCLUDED_ITEMS, pyStrIn pat (pyUpper c.name) = false) ∧
    ∃ cat row, (processRow cat row).2 = some c ∧
      parseFloatLit (stripCommas (cellStr (row.getLastD none))) = some c.average_price := by
  obtain ⟨cat, row, hrow⟩ := mem_extract doc c h
  obtain ⟨h1, h2, h3, h4⟩ := processRow_some _ _ _ hrow
  exact ⟨h1, h2, h3, cat, row, hrow, h4⟩

/-- Witness for C6 at a concrete document. -/
theorem extractor_exclusion_invariant_witness :
    tomatoItem.name ≠ "" ∧ tomatoItem.category ∉ EXCLUDED_CATEGORIES :=
  ⟨(extractor_exclusion_invariant (Document.pages [PageOutcome.ok [[hdrRow, rowTomato]]])
      tomatoItem (by with_unfolding_all decide)).1,
   (extractor_exclusion_invariant (Document.pages [PageOutcome.ok [[hdrRow, rowTomato]]])
      tomatoItem (by with_unfolding_all decide)).2.1⟩

/-- Claim C7: price parsing strips the comma separators and parses the
rest as a number, so "1,234.50" yields 1234.50; a row whose price cell
fails to parse (such as "N/A") is dropped by itself — processing
continues with the remaining rows of the table, with only the running
category carried over — and concretely a table with an "N/A" row
followed by a good row still yields the item of the good row. -/
theorem price_parse_and_row_drop :
    parseFloatLit (stripCommas "1,234.50") = some (mkRat 2469 2) ∧
    mkRat 2469 2 = (2469 : ℚ) / 2 ∧
    (∀ (cat : String) (row : Row) (rest : List Row),
      parseFloatLit (stripCommas (cellStr (row.getLastD none))) = none →
      processRows cat (row :: rest) = processRows (processRow cat row).1 rest) ∧
    processTable [hdrRow, rowNA, rowTomato] = [tomatoItem] := by
  refine ⟨?_, ?_, ?_, by with_unfolding_all decide⟩
  · have h1 : stripCommas "1,234.50" = "1234.50" := by decide
    rw [h1]
    exact parseFloatLit_example
  · rw [Rat.mkRat_eq_div]
    norm_num
  intro cat row rest hfail
  rw [processRows]
  rcases hpr : processRow cat row with ⟨cat2, item⟩
  have h2 := processRow_parse_fail cat row hfail
  rw [hpr] at h2
  dsimp only at h2
  subst h2
  rfl

/-- Witness for C7: the "N/A" row is dropped and the table continues. -/
theorem price_parse_and_row_drop_witness :
    processRows "" [rowNA, rowTomato] = processRows (processRow "" rowNA).1 [rowTomato] :=
  price_parse_and_row_drop.2.2.1 "" rowNA [rowTomato] (by with_unfolding_all decide)

theorem catThread_spec (rows : List Row) : ∀ (cat : String),
    (∀ r ∈ rows, ¬ r.length < 5) →
    catThread cat rows =
      match rows.reverse.find? (fun r => cellStr (r.headD none) != "") with
      | some r => pyStrip (pyUpper (cellStr (r.headD none)))
      | none => cat := by
  induction rows with
  | nil =>
    intro cat _
    simp [catThread]
  | cons r rest ih =>
    intro cat hlen
    have h5 : ¬ r.length < 5 := hlen r (List.mem_cons_self _ _)
    have hstep : catThread cat (r :: rest) = catThread ((processRow cat r).1) rest := rfl
    rw [hstep, processRow_fst cat r h5,
      ih _ (fun x hx => hlen x (List.mem_cons_of_mem _ hx))]
    rw [List.reverse_cons, List.find?_append]
    cases hf : rest.reverse.find? (fun row => cellStr (row.headD none) != "") with
    | some x => rfl
    | none =>
      simp only [Option.none_or, List.find?]
      by_cases hc : (cellStr (r.headD none) != "") = true
      · rw [if_pos hc, hc]
      · have hcf : (cellStr (r.headD none) != "") = false := by
          simpa using hc
        rw [if_neg hc, hcf]

/-- Claim C5: when the Extractor, having processed the data rows `pre`
of a table (all rows well-formed, that is at least 5 cells), emits an
item from the next row `r`, the category of that item is the uppercased
category cell of the most recent row among `pre ++ [r]` whose category
cell is non-blank (rows with a blank category cell inherit from the
preceding row that had one). -/
theorem category_inheritance (table pre post : List Row) (r : Row) (c : Commodity)
    (hsplit : table.drop 1 = pre ++ r :: post)
    (hlen : ∀ row ∈ table.drop 1, ¬ row.length < 5)
    (hemit : (processRow (catThread "" pre) r).2 = some c) :
    c.category = specRowCat (pre ++ [r]) := by
  have hrmem : r ∈ table.drop 1 := by
    rw [hsplit]
    exact List.mem_append_right _ (List.mem_cons_self _ _)
  have hr5 : ¬ r.length < 5 := hlen r hrmem
  have hpre : ∀ row ∈ pre, ¬ row.length < 5 := fun row hrow =>
    hlen row (by rw [hsplit]; exact List.mem_append_left _ hrow)
  have h1 := processRow_snd_cat _ _ _ hemit
  rw [h1, processRow_fst _ _ hr5, catThread_spec pre "" hpre]
  unfold specRowCat
  rw [List.reverse_append]
  simp only [List.reverse_cons, List.reverse_nil, List.nil_append, List.singleton_append,
    List.find?]
  by_cases hc : (cellStr (r.headD none) != "") = true
  · rw [if_pos hc, hc]
  · have hcf : (cellStr (r.headD none) != "") = false := by simpa using hc
    rw [if_neg hc, hcf]
    rfl

/-- Witness for C5: in the scenario of the claim — data row 1 carries
category "A", rows 2 and 3 have blank category cells — the second item
inherits "A", and the whole table parses to three items all carrying
"A". -/
theorem category_inheritance_witness :
    itmA2.category = specRowCat ([rowA1] ++ [rowA2]) ∧
    specRowCat ([rowA1] ++ [rowA2]) = "A" ∧
    processTable [hdrRow, rowA1, rowA2, rowA3] =
      [{ name := "Itm1", category := "A", specifications := none, unit := "kg",
         average_price := 10 }, itmA2,
       { name := "Itm3", category := "A", specifications := none, unit := "kg",
         average_price := 12 }] := by
  refine ⟨category_inheritance [hdrRow, rowA1, rowA2, rowA3] [rowA1] [rowA3] rowA2 itmA2
      rfl ?_ ?_, ?_, ?_⟩
  · with_unfolding_all decide
  · with_unfolding_all decide
  · with_unfolding_all decide
  · with_unfolding_all decide

theorem selectBest_ge_start (l : List PdfCandidate) :
    ∀ b, b.date.key ≤ (selectBest b l).date.key := by
  induction l with
  | nil => intro b; exact le_refl _
  | cons c l ih =>
    intro b
    rw [selectBest]
    by_cases h : b.date.key < c.date.key
    · rw [if_pos h]
      exact le_of_lt (lt_of_lt_of_le h (ih c))
    · rw [if_neg h]
      exact ih b

theorem selectBest_max (l : List PdfCandidate) :
    ∀ b d, d ∈ l → d.date.key ≤ (selectBest b l).date.key := by
  induction l with
  | nil =>
    intro b d hd
    exact absurd hd (List.not_mem_nil d)
  | cons c l ih =>
    intro b d hd
    rw [selectBest]
    rcases List.mem_cons.mp hd with h | h
    · subst h
      by_cases hb : b.date.key < d.date.key
      · rw [if_pos hb]
        exact selectBest_ge_start l d
      · rw [if_neg hb]
        exact le_trans (le_of_not_lt hb) (selectBest_ge_start l b)
    · by_cases hb : b.date.key < c.date.key
      · rw [if_pos hb]
        exact ih c d h
      · rw [if_neg hb]
        exact ih b d h

theorem selectBest_first (l : List PdfCandidate) :
    ∀ b, ∃ pre suf, b :: l = pre ++ (selectBest b l) :: suf ∧
      ∀ d ∈ pre, d.date.key < (selectBest b l).date.key := by
  induction l with
  | nil =>
    intro b
    exact ⟨[], [], rfl, by simp⟩
  | cons c l ih =>
    intro b
    rw [selectBest]
    by_cases h : b.date.key < c.date.key
    · rw [if_pos h]
      obtain ⟨pre, suf, hdec, hlt⟩ := ih c
      refine ⟨b :: pre, suf, ?_, ?_⟩
      · rw [List.cons_append, ← hdec]
      · intro d hd
        rcases List.mem_cons.mp hd with h2 | h2
        · subst h2
          exact lt_of_lt_of_le h (selectBest_ge_start l c)
        · exact hlt d h2
    · rw [if_neg h]
      obtain ⟨pre, suf, hdec, hlt⟩ := ih b
      cases pre with
      | nil =>
        simp only [List.nil_append] at hdec
        injection hdec with h1 h2
        refine ⟨[], c :: l, ?_, by simp⟩
        rw [List.nil_append, ← h1]
      | cons p pre' =>
        simp only [List.cons_append] at hdec
        injection hdec with h1 h2
        subst h1
        refine ⟨b :: c :: pre', suf, ?_, ?_⟩
        · rw [List.cons_append, List.cons_append, ← h2]
        · intro d hd
          rcases List.mem_cons.mp hd with h3 | h3
          · subst h3
            exact hlt d (List.mem_cons_self _ _)
          rcases List.mem_cons.mp h3 with h4 | h4
          · subst h4
            exact lt_of_le_of_lt (le_of_not_lt h) (hlt b (List.mem_cons_self _ _))
          · exact hlt d (List.mem_cons_of_mem _ h4)

/-- Claim C8: the Selector returns "no document" exactly when no dated
candidate remains after filtering; otherwise it returns the URL of a
candidate whose date is maximal and which is the first-encountered
candidate of that date (every earlier candidate is strictly older). -/
theorem selector_latest_and_tiebreak :
    (∀ links : List PageLink, get_latest_pdf_url links = none ↔ candidatesOf links = []) ∧
    (∀ (links : List PageLink) (c : PdfCandidate),
      selectLatest (candidatesOf links) = some c →
      get_latest_pdf_url links = some c.url ∧
      (∀ d ∈ candidatesOf links, d.date.key ≤ c.date.key) ∧
      ∃ pre suf, candidatesOf links = pre ++ c :: suf ∧
        ∀ d ∈ pre, d.date.key < c.date.key) := by
  constructor
  · intro links
    unfold get_latest_pdf_url
    cases hc : candidatesOf links with
    | nil => simp [selectLatest]
    | cons a l => simp [selectLatest]
  · intro links c hsel
    have hurl : get_latest_pdf_url links = some c.url := by
      unfold get_latest_pdf_url
      rw [hsel]
      rfl
    cases hcand : candidatesOf links with
    | nil =>
      rw [hcand, selectLatest] at hsel
      exact Option.noConfusion hsel
    | cons a l =>
      rw [hcand, selectLatest] at hsel
      injection hsel with hsel
      refine ⟨hurl, ?_, ?_⟩
      · intro d hd
        rw [← hsel]
        rcases List.mem_cons.mp hd with h | h
        · subst h
          exact selectBest_ge_start l d
        · exact selectBest_max l a d h
      · obtain ⟨pre, suf, hdec, hlt⟩ := selectBest_first l a
        rw [hsel] at hdec hlt
        exact ⟨pre, suf, hdec, hlt⟩

/-- Witness for C8: a page with two candidates carrying the same date
(one dated from the filename, one from the link text) and one undated
candidate: the undated one is discarded and the tie goes to the
first-encountered candidate. -/
theorem selector_latest_and_tiebreak_witness :
    get_latest_pdf_url tieLinks =
      some "https://caraga.da.gov.ph/PriceMonitoring-October-14-2025.pdf" :=
  ((selector_latest_and_tiebreak.2 tieLinks
    ⟨"https://caraga.da.gov.ph/PriceMonitoring-October-14-2025.pdf", ⟨2025, 10, 14⟩⟩
    (by decide))).1

theorem dictGet_cons (p : String × JValue) (rest : List (String × JValue)) (f : String) :
    dictGet (p :: rest) f = if (p.1 == f) = true then some p.2 else dictGet rest f := by
  unfold dictGet
  simp only [List.find?]
  cases hk : (p.1 == f) <;> simp [hk]

theorem dictGet_append_left_none (l1 l2 : List (String × JValue)) (f : String)
    (h : dictGet l1 f = none) : dictGet (l1 ++ l2) f = dictGet l2 f := by
  unfold dictGet at *
  rw [List.find?_append]
  cases hf : l1.find? (fun p => p.1 == f) with
  | some x =>
    rw [hf] at h
    exact Option.noConfusion h
  | none => rw [Option.none_or]

theorem dictGet_applyPatch_none (payload : List (String × JValue)) (f : String)
    (h : dictGet payload f = none) :
    ∀ row : List (String × JValue), dictGet (applyPatch row payload) f = dictGet row f := by
  intro row
  induction row with
  | nil => rfl
  | cons p rest ih =>
    have hmap : applyPatch (p :: rest) payload =
        (match dictGet payload p.1 with
          | some v => (p.1, v)
          | none => p) :: applyPatch rest payload := rfl
    rw [hmap]
    have hfst : (match dictGet payload p.1 with
        | some v => (p.1, v)
        | none => p).1 = p.1 := by
      cases dictGet payload p.1 <;> rfl
    rw [dictGet_cons, dictGet_cons, hfst]
    by_cases hk : (p.1 == f) = true
    · rw [if_pos hk, if_pos hk]
      have hpn : dictGet payload p.1 = none := by
        rw [eq_of_beq hk]
        exact h
      rw [hpn]
    · rw [if_neg hk, if_neg hk]
      exact ih

theorem dictGet_selectColumns (cols : List String) (f : String) :
    ∀ row : List (String × JValue),
      dictGet (selectColumns cols row) f =
        if cols.contains f = true then dictGet row f else none := by
  intro row
  induction row with
  | nil =>
    cases hc : cols.contains f <;> simp [selectColumns, dictGet, hc]
  | cons p rest ih =>
    by_cases hc : cols.contains p.1 = true
    · have hsel : selectColumns cols (p :: rest) = p :: selectColumns cols rest := by
        unfold selectColumns
        have hm : p.1 ∈ cols := by simpa using hc
        simp [List.filter_cons, hm]
      rw [hsel]
      simp only [dictGet_cons]
      by_cases hk : (p.1 == f) = true
      · have hpf := eq_of_beq hk
        rw [← hpf, hc]
        simp [hk]
      · simp only [if_neg hk]
        rw [ih]
    · have hcf : cols.contains p.1 = false := by simpa using hc
      have hsel : selectColumns cols (p :: rest) = selectColumns cols rest := by
        unfold selectColumns
        have hnm : p.1 ∉ cols := by simpa using hc
        simp [List.filter_cons, hnm]
      rw [hsel, ih]
      by_cases hk : (p.1 == f) = true
      · have hpf := eq_of_beq hk
        rw [← hpf, hcf]
        simp
      · simp only [dictGet_cons, if_neg hk]

/-- Claim C9: for a found record, complete tracked nutrition gives a
price-only update — the Enricher is not called, the payload names
exactly the specification, price, availability and update-timestamp
fields, and applying the PATCH leaves every nutrition column of the
stored row unchanged; any tracked null gives a full refresh — the
Enricher is called, the payload names the four price fields followed by
all thirteen nutrition columns, and the nutrition entries of the payload
are exactly the enrichment result. -/
theorem upsert_reconciliation (item : Commodity) (now : String) (enrich : NutritionProfile)
    (fetched row : List (String × JValue)) :
    (has_any_null_nutrition fetched = false →
      (update_for_existing item now enrich fetched).called_enricher = false ∧
      (update_for_existing item now enrich fetched).payload.map Prod.fst = price_only_keys ∧
      (∀ f ∈ all_nutrition_columns,
        dictGet (applyPatch row (update_for_existing item now enrich fetched).payload) f =
          dictGet row f)) ∧
    (has_any_null_nutrition fetched = true →
      (update_for_existing item now enrich fetched).called_enricher = true ∧
      (update_for_existing item now enrich fetched).payload.map Prod.fst =
        price_only_keys ++ all_nutrition_columns ∧
      (∀ f ∈ all_nutrition_columns,
        dictGet (update_for_existing item now enrich fetched).payload f =
          dictGet (profileFields enrich) f)) := by
  constructor
  · intro hfull
    have hstep : update_for_existing item now enrich fetched =
        ⟨false, priceOnlyData item now⟩ := by
      unfold update_for_existing
      rw [hfull]
      rfl
    rw [hstep]
    refine ⟨rfl, rfl, ?_⟩
    intro f hf
    apply dictGet_applyPatch_none
    fin_cases hf <;> rfl
  · intro hnull
    have hstep : update_for_existing item now enrich fetched =
        ⟨true, priceOnlyData item now ++ profileFields enrich⟩ := by
      unfold update_for_existing
      rw [hnull]
      rfl
    rw [hstep]
    refine ⟨rfl, rfl, ?_⟩
    intro f hf
    apply dictGet_append_left_none
    fin_cases hf <;> rfl

/-- Witness for C9: a fetched record with complete tracked nutrition
takes the no-enrichment branch; one with a null carbs column takes the
enrichment branch. -/
theorem upsert_reconciliation_witness :
    (update_for_existing tomatoItem "now" get_default_nutrition
        (selectColumns upsert_select exampleFullRecord)).called_enricher = false ∧
    (update_for_existing tomatoItem "now" get_default_nutrition
        fetchedWithNull).called_enricher = true :=
  ⟨((upsert_reconciliation tomatoItem "now" get_default_nutrition
      (selectColumns upsert_select exampleFullRecord) []).1 (by with_unfolding_all decide)).1,
   ((upsert_reconciliation tomatoItem "now" get_default_nutrition
      fetchedWithNull []).2 (by with_unfolding_all decide)).1⟩

/-- Claim C10 (amended): the "nutrition complete" test reads exactly the
seven tracked columns, never a dietary-flag column — records agreeing on
those seven are classified identically, and a record whose seven tracked
columns are non-null takes the price-only branch whatever its flag
columns hold; the fix-all-null-records sweep, however, fetches only
three of the seven tracked columns, so the four missing columns read as
null and it classifies every record — including one whose only nulls
are boolean flags — as needing enrichment. -/
theorem nutrition_check_scope :
    (∀ r r' : List (String × JValue),
      (∀ f ∈ nutrition_fields, dictGet r f = dictGet r' f) →
      has_any_null_nutrition r = has_any_null_nutrition r') ∧
    (∀ (item : Commodity) (now : String) (enrich : NutritionProfile)
        (row : List (String × JValue)),
      (∀ f ∈ nutrition_fields, isNullish (dictGet row f) = false) →
      (update_for_existing item now enrich
        (selectColumns upsert_select row)).called_enricher = false) ∧
    (∀ row : List (String × JValue), sweepDetects row = true) := by
  refine ⟨?_, ?_, ?_⟩
  · intro r r' h
    unfold has_any_null_nutrition
    have hgen : ∀ fs : List String, (∀ f ∈ fs, dictGet r f = dictGet r' f) →
        (fs.any fun f => isNullish (dictGet r f)) =
          (fs.any fun f => isNullish (dictGet r' f)) := by
      intro fs
      induction fs with
      | nil => intro; rfl
      | cons a fs ih =>
        intro hfs
        simp only [List.any_cons, hfs a (List.mem_cons_self _ _),
          ih (fun x hx => hfs x (List.mem_cons_of_mem _ hx))]
    exact hgen nutrition_fields h
  · intro item now enrich row hrow
    have hfull : has_any_null_nutrition (selectColumns upsert_select row) = false := by
      unfold has_any_null_nutrition
      rw [List.any_eq_false]
      intro f hf
      rw [dictGet_selectColumns]
      have hcont : upsert_select.contains f = true := by fin_cases hf <;> rfl
      rw [if_pos hcont, hrow f hf]
      exact Bool.noConfusion
    unfold update_for_existing
    rw [hfull]
    rfl
  · intro row
    unfold sweepDetects has_any_null_nutrition
    rw [List.any_eq_true]
    refine ⟨"protein_per_100g", by decide, ?_⟩
    rw [dictGet_selectColumns]
    rw [if_neg (by decide)]
    rfl

/-- Witness for C10: the record whose seven tracked columns are non-null
but whose six dietary flags are all null takes the price-only branch,
and is nonetheless flagged by the sweep. -/
theorem nutrition_check_scope_witness :
    (update_for_existing tomatoItem "now" get_default_nutrition
        (selectColumns upsert_select exampleFullRecord)).called_enricher = false ∧
    sweepDetects exampleFullRecord = true :=
  ⟨nutrition_check_scope.2.1 tomatoItem "now" get_default_nutrition exampleFullRecord
      (by with_unfolding_all decide),
   nutrition_check_scope.2.2 exampleFullRecord⟩

/-- Counterexample for C10 as stated: `exampleFullRecord` has all seven
tracked columns non-null (the upsert check sees complete data) and every
dietary flag null, yet the fix-all-null-records sweep detects it as a
null record, because its projection lacks four of the tracked columns. -/
theorem sweep_detects_counterexample :
    has_any_null_nutrition (selectColumns upsert_select exampleFullRecord) = false ∧
    dictGet exampleFullRecord "is_vegan" = some JValue.null ∧
    sweepDetects exampleFullRecord = true := by
  with_unfolding_all decide
